import Mathlib

/-!
Verification of the Hierarchy Normalization Engine of the
els-normalization-pipeline repository.

The definitions below are a shallow embedding of the Python source:

* `src/els_pipeline/models.py` — the pydantic data models
  (`DetectedElement`, `HierarchyLevel`, `NormalizedStandard`,
  `ParseResult`) together with their field validators, modelled as
  plain structures plus explicit fallible smart constructors;
* `src/els_pipeline/parser.py` — `detect_hierarchy_depth`,
  `normalize_hierarchy_mapping`, `assign_canonical_levels`,
  `generate_standard_id` and `parse_hierarchy`.

Modelling conventions:

* Python `float` confidences become `ℚ` (order comparisons on small
  decimal literals agree with the exact rational values involved);
  Python `int` becomes `ℤ` where the source can be negative, `ℕ` for
  list indices.
* The parser's raw level labels are duck-typed in Python: every
  function of `parser.py` only compares labels for equality and uses
  them as dictionary keys.  The embedding is therefore polymorphic in
  the label type `α` (with decidable equality); the pipeline's
  concrete instantiation is `α := HierarchyLevelEnum`, giving
  `DetectedElement = Fragment HierarchyLevelEnum` exactly as in
  `models.py`.
* A Python exception crossing an internal boundary is modelled with
  `Except String`; the single raising site reachable inside
  `parse_hierarchy`'s `try` block is pydantic validation when a
  `NormalizedStandard` is constructed (the `country` regex check and
  the `source_page > 0` bound).  Error message text is modelled by the
  message of the `ValueError` raised inside the validator.
* The vestigial helpers `build_hierarchy_tree` and
  `extract_standards_from_tree` are dead code on the `parse_hierarchy`
  path (the final document-order loop supersedes them) and are not
  embedded.
-/

namespace ELS

/-- Embedding of `HierarchyLevelEnum` from `models.py`: the four
canonical hierarchy levels. -/
inductive HierarchyLevelEnum where
  | domain
  | strand
  | sub_strand
  | indicator
deriving DecidableEq

/-- Embedding of `DetectedElement` from `models.py`, polymorphic in the
raw level label type `α` (the parser treats labels opaquely; the
pipeline instantiates `α := HierarchyLevelEnum`).  Field validators of
the pydantic model are captured by `mkDetectedElement` below. -/
structure Fragment (α : Type) where
  level : α
  code : String
  title : String
  description : String
  confidence : ℚ
  source_page : ℤ
  source_text : String
  needs_review : Bool
deriving DecidableEq

/-- The pipeline's concrete fragment type: `DetectedElement` of
`models.py`, whose `level` field is a `HierarchyLevelEnum`. -/
abbrev DetectedElement := Fragment HierarchyLevelEnum

/-- Embedding of the `DetectedElement` pydantic constructor: field
bounds `0 ≤ confidence ≤ 1` and `source_page > 0`, and the
`validate_needs_review` field validator, which replaces the supplied
`needs_review` by `confidence < 0.7` whenever the two disagree.
Returns `none` when pydantic would raise a `ValidationError`. -/
def mkDetectedElement {α : Type} (level : α) (code title description : String)
    (confidence : ℚ) (source_page : ℤ) (source_text : String)
    (needs_review : Bool) : Option (Fragment α) :=
  if 0 ≤ confidence ∧ confidence ≤ 1 then
    if 0 < source_page then
      let expected : Bool := decide (confidence < mkRat 7 10)
      let nr : Bool := if needs_review ≠ expected then expected else needs_review
      some ⟨level, code, title, description, confidence, source_page, source_text, nr⟩
    else none
  else none

/-- Embedding of `HierarchyLevel` from `models.py`. -/
structure HierarchyLevel where
  code : String
  name : String
  description : Option String
deriving DecidableEq

/-- Embedding of `NormalizedStandard` from `models.py`.  The `domain`
and `indicator` fields are structurally required (non-nullable), while
`strand` and `sub_strand` are optional, exactly as in the pydantic
model. -/
structure NormalizedStandard where
  standard_id : String
  country : String
  state : String
  version_year : ℤ
  domain : HierarchyLevel
  strand : Option HierarchyLevel
  sub_strand : Option HierarchyLevel
  indicator : HierarchyLevel
  source_page : ℤ
  source_text : String
deriving DecidableEq

/-- The `validate_country_code` check of `models.py`: the regex
`^[A-Z]{2}$`. -/
def countryCodeValid (c : String) : Bool :=
  c.toList.length = 2 && c.toList.all (fun ch => 'A' ≤ ch && ch ≤ 'Z')

/-- Embedding of the `NormalizedStandard` pydantic constructor: the
`country` regex validator and the `source_page > 0` field bound, in
field-declaration order.  A failed check is the pydantic
`ValidationError` raised inside `parse_hierarchy`'s `try` block,
modelled as `Except.error` carrying the validator's message. -/
def mkNormalizedStandard (standard_id country state : String) (version_year : ℤ)
    (domain : HierarchyLevel) (strand sub_strand : Option HierarchyLevel)
    (indicator : HierarchyLevel) (source_page : ℤ) (source_text : String) :
    Except String NormalizedStandard :=
  if countryCodeValid country then
    if 0 < source_page then
      Except.ok ⟨standard_id, country, state, version_year, domain, strand,
        sub_strand, indicator, source_page, source_text⟩
    else Except.error "source_page must be greater than 0"
  else Except.error
    ("country must be a two-letter uppercase ISO 3166-1 alpha-2 code, got: " ++ country)

/-- Decidable equality for `Except`, needed to evaluate the embedded
parser body on concrete inputs. -/
instance {ε σ : Type} [DecidableEq ε] [DecidableEq σ] : DecidableEq (Except ε σ) := fun a b =>
  match a, b with
  | Except.error a, Except.error b =>
      if h : a = b then Decidable.isTrue (by rw [h]) else Decidable.isFalse (by simp [h])
  | Except.error _, Except.ok _ => Decidable.isFalse (by simp)
  | Except.ok _, Except.error _ => Decidable.isFalse (by simp)
  | Except.ok a, Except.ok b =>
      if h : a = b then Decidable.isTrue (by rw [h]) else Decidable.isFalse (by simp [h])

/-- Embedding of `ParseResult` from `models.py`.  The `indicators`
field holds the serialized (`model_dump`) mirror of `standards`; the
serialization is field-for-field, so it is modelled by the same
record type. -/
structure ParseResult (α : Type) where
  standards : List NormalizedStandard
  indicators : List NormalizedStandard
  orphaned_elements : List (Fragment α)
  status : String
  error : Option String
deriving DecidableEq

/-- Distinct raw levels of a list, in order of first occurrence.  This
is `present_levels` of `assign_canonical_levels` in `parser.py`
(insertion-ordered `first_appearance` dict, then a stable sort by first
appearance index), and its length is `len(set(levels))` of
`detect_hierarchy_depth`.  `seen` accumulates the labels already
emitted. -/
def firstOccsAux {α : Type} [DecidableEq α] (seen : List α) : List α → List α
  | [] => []
  | a :: l => if a ∈ seen then firstOccsAux seen l else a :: firstOccsAux (a :: seen) l

/-- Distinct elements of a list in order of first occurrence. -/
def firstOccs {α : Type} [DecidableEq α] (l : List α) : List α :=
  firstOccsAux [] l

/-- Embedding of `detect_hierarchy_depth` from `parser.py`:
`len(set(e.level for e in elements))`, i.e. the number of distinct raw
levels. -/
def detect_hierarchy_depth {α : Type} [DecidableEq α] (elements : List (Fragment α)) : ℕ :=
  (firstOccs (elements.map (·.level))).length

/-- Embedding of `normalize_hierarchy_mapping` from `parser.py`: the
depth-indexed partial map from first-occurrence rank to canonical
tier.  The Python `dict.get` returning `None` for an absent key is the
`none` branches.  Depths other than 2 and 3 (including 0 and 1) take
the `else` (4-or-more) branch, exactly as in the source. -/
def normalize_hierarchy_mapping (depth : ℕ) : ℕ → Option HierarchyLevelEnum :=
  if depth = 2 then fun idx =>
    match idx with
    | 0 => some HierarchyLevelEnum.domain
    | 1 => some HierarchyLevelEnum.indicator
    | _ => none
  else if depth = 3 then fun idx =>
    match idx with
    | 0 => some HierarchyLevelEnum.domain
    | 1 => some HierarchyLevelEnum.strand
    | 2 => some HierarchyLevelEnum.indicator
    | _ => none
  else fun idx =>
    match idx with
    | 0 => some HierarchyLevelEnum.domain
    | 1 => some HierarchyLevelEnum.strand
    | 2 => some HierarchyLevelEnum.sub_strand
    | 3 => some HierarchyLevelEnum.indicator
    | _ => none

/-- Index of the first occurrence of `lvl` in a list, as an option.
This is the rank a label receives in `enumerate(present_levels)` of
`assign_canonical_levels`. -/
def idxOfLevel {α : Type} [DecidableEq α] (lvl : α) : List α → Option ℕ
  | [] => none
  | a :: l => if a = lvl then some 0 else (idxOfLevel lvl l).map (· + 1)

/-- The `original_to_canonical` lookup of `assign_canonical_levels`:
a raw label is mapped through its first-occurrence rank in
`present` and the depth-indexed canonical mapping (`present.length`
is the detected depth). -/
def canonicalOf {α : Type} [DecidableEq α] (present : List α) (lvl : α) :
    Option HierarchyLevelEnum :=
  match idxOfLevel lvl present with
  | some idx => normalize_hierarchy_mapping present.length idx
  | none => none

/-- Embedding of `assign_canonical_levels` from `parser.py`: tag each
element whose raw level maps to a canonical tier, preserving document
order; elements whose level is unmapped are skipped (the Python
`if canonical_level:` guard — every enum value is truthy). -/
def assign_canonical_levels {α : Type} [DecidableEq α] (elements : List (Fragment α)) :
    List (Fragment α × HierarchyLevelEnum) :=
  elements.filterMap fun e =>
    (canonicalOf (firstOccs (elements.map (·.level))) e.level).map (fun c => (e, c))

/-- Embedding of `generate_standard_id` from `parser.py`: the literal
f-string concatenation. -/
def generate_standard_id (country state : String) (version_year : ℤ)
    (domain_code indicator_code : String) : String :=
  country ++ "-" ++ state ++ "-" ++ toString version_year ++ "-" ++
    domain_code ++ "-" ++ indicator_code

/-- The mutable loop state of the document-order assembly loop of
`parse_hierarchy` (`current_domain`, `current_strand`,
`current_sub_strand` plus the `standards` and `orphaned`
accumulators). -/
structure AsmState (α : Type) where
  current_domain : Option (Fragment α)
  current_strand : Option (Fragment α)
  current_sub_strand : Option (Fragment α)
  standards : List NormalizedStandard
  orphaned : List (Fragment α)
deriving DecidableEq

/-- The initial loop state of `parse_hierarchy`: all context slots
empty, both accumulators empty. -/
def initState {α : Type} : AsmState α := ⟨none, none, none, [], []⟩

/-- One iteration of the document-order loop of `parse_hierarchy`
(lines 365–433 of `parser.py`).  Constructing the `NormalizedStandard`
can raise (pydantic validation), hence the `Except`. -/
def parseStep {α : Type} (country state : String) (version_year : ℤ)
    (st : AsmState α) (x : Fragment α × HierarchyLevelEnum) :
    Except String (AsmState α) :=
  match x.2 with
  | HierarchyLevelEnum.domain =>
      Except.ok { st with current_domain := some x.1, current_strand := none,
                          current_sub_strand := none }
  | HierarchyLevelEnum.strand =>
      Except.ok { st with current_strand := some x.1, current_sub_strand := none }
  | HierarchyLevelEnum.sub_strand =>
      Except.ok { st with current_sub_strand := some x.1 }
  | HierarchyLevelEnum.indicator =>
      match st.current_domain with
      | none => Except.ok { st with orphaned := st.orphaned ++ [x.1] }
      | some dom =>
          match mkNormalizedStandard
              (generate_standard_id country state version_year dom.code x.1.code)
              country state version_year
              ⟨dom.code, dom.title, none⟩
              (st.current_strand.map fun f => ⟨f.code, f.title, none⟩)
              (st.current_sub_strand.map fun f => ⟨f.code, f.title, none⟩)
              ⟨x.1.code, x.1.title, some x.1.description⟩
              x.1.source_page x.1.source_text with
          | Except.ok std => Except.ok { st with standards := st.standards ++ [std] }
          | Except.error msg => Except.error msg

/-- Body of the `try` block of `parse_hierarchy`: review filtering, the
three early error returns, and the document-order assembly loop.  The
unused `strands` / `sub_strands` groupings and the unused `depth`
variable of the source do not affect the result and are omitted. -/
def parseHierarchyBody {α : Type} [DecidableEq α] (elements : List (Fragment α))
    (country state : String) (version_year : ℤ) : Except String (ParseResult α) :=
  let valid_elements := elements.filter fun e => !e.needs_review
  if valid_elements.isEmpty then
    Except.ok ⟨[], [], elements, "error",
      some "No valid elements to parse (all flagged for review)"⟩
  else
    let elements_with_canonical := assign_canonical_levels valid_elements
    if (elements_with_canonical.filter
        fun x => x.2 = HierarchyLevelEnum.domain).isEmpty then
      Except.ok ⟨[], [], valid_elements, "error", some "No domain elements found"⟩
    else if (elements_with_canonical.filter
        fun x => x.2 = HierarchyLevelEnum.indicator).isEmpty then
      Except.ok ⟨[], [], valid_elements, "error", some "No indicator elements found"⟩
    else
      match elements_with_canonical.foldlM (parseStep country state version_year)
          initState with
      | Except.error msg => Except.error msg
      | Except.ok final =>
          Except.ok ⟨final.standards, final.standards, final.orphaned, "success", none⟩

/-- Embedding of `parse_hierarchy` from `parser.py`: the `try` body,
with the top-level `except` clause returning the conservative
catch-all result (original unfiltered input as orphaned). -/
def parse_hierarchy {α : Type} [DecidableEq α] (elements : List (Fragment α))
    (country state : String) (version_year : ℤ) : ParseResult α :=
  match parseHierarchyBody elements country state version_year with
  | Except.ok r => r
  | Except.error msg =>
      ⟨[], [], elements, "error", some ("Parsing failed: " ++ msg)⟩

/-- First-occurrence rank of a raw level among the distinct levels of
`elements` (defined when the level occurs; defaults to 0 otherwise). -/
def rawLevelRank {α : Type} [DecidableEq α] (elements : List (Fragment α)) (lvl : α) : ℕ :=
  (idxOfLevel lvl (firstOccs (elements.map (·.level)))).getD 0

/-- The fragments kept (not silently dropped) by
`assign_canonical_levels`. -/
def keptFragments {α : Type} [DecidableEq α] (elements : List (Fragment α)) :
    List (Fragment α) :=
  (assign_canonical_levels elements).map Prod.fst

/-- Builder for concrete high-confidence `DetectedElement` examples
(confidence 1, page 1, not flagged for review). -/
def exFrag (l : HierarchyLevelEnum) (code name : String) : DetectedElement :=
  ⟨l, code, name, "desc " ++ code, 1, 1, "src " ++ code, false⟩

/-- Builder for concrete fragments with numeric raw-level labels, used
to exercise depths the four-valued enum cannot reach. -/
def natFrag (l : ℕ) (code : String) : Fragment ℕ :=
  ⟨l, code, "title " ++ code, "desc " ++ code, 1, 1, "src " ++ code, false⟩

/-- Depth-4 input in which a second Domain fragment is followed by a
SubStrand fragment with no intervening Strand fragment. -/
def esDomResetSubStrand : List DetectedElement :=
  [exFrag HierarchyLevelEnum.domain "A" "Dom A",
   exFrag HierarchyLevelEnum.strand "A.1" "Str A1",
   exFrag HierarchyLevelEnum.sub_strand "A.1.a" "Sub A1a",
   exFrag HierarchyLevelEnum.indicator "A.1.a.i" "Ind A1ai",
   exFrag HierarchyLevelEnum.domain "B" "Dom B",
   exFrag HierarchyLevelEnum.sub_strand "B.x" "Sub Bx",
   exFrag HierarchyLevelEnum.indicator "B.1" "Ind B1"]

/-- Depth-3 input in which a second Domain fragment is followed by an
Indicator fragment with no intervening Strand fragment. -/
def esDepthThreeReset : List DetectedElement :=
  [exFrag HierarchyLevelEnum.domain "A" "Dom A",
   exFrag HierarchyLevelEnum.strand "A.1" "Str A1",
   exFrag HierarchyLevelEnum.indicator "A.1.x" "Ind A1x",
   exFrag HierarchyLevelEnum.domain "B" "Dom B",
   exFrag HierarchyLevelEnum.indicator "B.1" "Ind B1"]

/-- Two-fragment, depth-2 input (spec scenario A). -/
def esTwoLevel : List DetectedElement :=
  [exFrag HierarchyLevelEnum.domain "LLD" "Language and Literacy",
   exFrag HierarchyLevelEnum.indicator "LLD.1" "Listening"]

/-- The single standard produced from `esTwoLevel`. -/
def stdTwoLevel : NormalizedStandard :=
  ⟨"US-CA-2021-LLD-LLD.1", "US", "CA", 2021,
   ⟨"LLD", "Language and Literacy", none⟩, none, none,
   ⟨"LLD.1", "Listening", some "desc LLD.1"⟩, 1, "src LLD.1"⟩

/-- Second two-fragment, depth-2 input. -/
def esTwoLevelB : List DetectedElement :=
  [exFrag HierarchyLevelEnum.domain "ATL" "Approaches to Learning",
   exFrag HierarchyLevelEnum.indicator "ATL.2" "Curiosity"]

/-- The single standard produced from `esTwoLevelB`. -/
def stdTwoLevelB : NormalizedStandard :=
  ⟨"US-CA-2021-ATL-ATL.2", "US", "CA", 2021,
   ⟨"ATL", "Approaches to Learning", none⟩, none, none,
   ⟨"ATL.2", "Curiosity", some "desc ATL.2"⟩, 1, "src ATL.2"⟩

/-- Spec scenario C input: context reset on a new Domain. -/
def esContextReset : List DetectedElement :=
  [exFrag HierarchyLevelEnum.domain "A" "Dom A",
   exFrag HierarchyLevelEnum.strand "A.1" "Str A1",
   exFrag HierarchyLevelEnum.sub_strand "A.1.a" "Sub A1a",
   exFrag HierarchyLevelEnum.indicator "A.1.a.i" "Ind A1ai",
   exFrag HierarchyLevelEnum.domain "B" "Dom B",
   exFrag HierarchyLevelEnum.indicator "B.1" "Ind B1"]

/-- Input whose filtered fragments exhibit five distinct raw levels
(numeric labels; the enum-typed pipeline instantiation admits at most
four distinct labels). -/
def esFiveLevels : List (Fragment ℕ) :=
  [natFrag 0 "d", natFrag 1 "s", natFrag 2 "ss", natFrag 3 "i", natFrag 4 "x"]

/-- An all-flagged-for-review input (confidence below the threshold). -/
def esAllFlagged : List DetectedElement :=
  [⟨HierarchyLevelEnum.indicator, "X", "T", "D", mkRat 1 2, 1, "S", true⟩]

/-- A Domain fragment for the concrete leniency scenario. -/
def domFragC7 : DetectedElement :=
  exFrag HierarchyLevelEnum.domain "ATL" "Approaches to Learning"

/-- An Indicator fragment for the concrete leniency scenario. -/
def indFragC7 : DetectedElement :=
  exFrag HierarchyLevelEnum.indicator "1.1" "Shows curiosity"

/-- A loop state with domain context set and empty strand and
sub-strand context. -/
def stC7 : AsmState HierarchyLevelEnum := ⟨some domFragC7, none, none, [], []⟩


section BasicLemmas

variable {α : Type} [DecidableEq α]

lemma mapping_zero (d : ℕ) : normalize_hierarchy_mapping d 0 = some HierarchyLevelEnum.domain := by
  unfold normalize_hierarchy_mapping
  by_cases h2 : d = 2
  · simp [h2]
  · by_cases h3 : d = 3 <;> simp [h2, h3]

lemma mapping_no_sub_strand_of_depth_le_three {d i : ℕ} (hd : d ≤ 3) (hi : i < d) :
    normalize_hierarchy_mapping d i ≠ some HierarchyLevelEnum.sub_strand := by
  unfold normalize_hierarchy_mapping
  interval_cases d <;> interval_cases i <;> simp

lemma mapping_depth_two_values {i : ℕ} {c : HierarchyLevelEnum} (hi : i < 2)
    (h : normalize_hierarchy_mapping 2 i = some c) :
    c ≠ HierarchyLevelEnum.strand ∧ c ≠ HierarchyLevelEnum.sub_strand := by
  unfold normalize_hierarchy_mapping at h
  interval_cases i <;> simp at h <;> subst h <;> simp

lemma mapping_else_isSome {d i : ℕ} (h2 : d ≠ 2) (h3 : d ≠ 3) :
    (normalize_hierarchy_mapping d i).isSome ↔ i < 4 := by
  unfold normalize_hierarchy_mapping
  simp only [h2, h3, if_false]
  rcases i with _ | _ | _ | _ | i <;> simp

lemma idxOfLevel_lt_length {lvl : α} : ∀ {l : List α} {i : ℕ},
    idxOfLevel lvl l = some i → i < l.length := by
  intro l
  induction l with
  | nil => intro i h; simp [idxOfLevel] at h
  | cons a t ih =>
      intro i h
      by_cases ha : a = lvl
      · simp only [idxOfLevel, if_pos ha] at h
        injection h with h
        subst h
        simp
      · simp only [idxOfLevel, if_neg ha, Option.map_eq_some'] at h
        rcases h with ⟨j, hj, rfl⟩
        have := ih hj
        simp only [List.length_cons]
        omega

lemma idxOfLevel_isSome_of_mem {lvl : α} : ∀ {l : List α}, lvl ∈ l →
    ∃ i, idxOfLevel lvl l = some i := by
  intro l
  induction l with
  | nil => intro h; simp at h
  | cons a t ih =>
      intro h
      by_cases ha : a = lvl
      · exact ⟨0, by simp [idxOfLevel, ha]⟩
      · rcases List.mem_cons.mp h with h' | h'
        · exact absurd h'.symm ha
        · rcases ih h' with ⟨i, hi⟩
          exact ⟨i + 1, by simp [idxOfLevel, ha, hi]⟩

lemma mem_firstOccsAux {b : α} : ∀ (l seen : List α),
    b ∈ firstOccsAux seen l ↔ b ∈ l ∧ b ∉ seen := by
  intro l
  induction l with
  | nil => intro seen; simp [firstOccsAux]
  | cons a t ih =>
      intro seen
      by_cases ha : a ∈ seen
      · rw [show firstOccsAux seen (a :: t) = firstOccsAux seen t from by
          simp [firstOccsAux, ha], ih]
        constructor
        · rintro ⟨h1, h2⟩
          exact ⟨List.mem_cons_of_mem _ h1, h2⟩
        · rintro ⟨h1, h2⟩
          rcases List.mem_cons.mp h1 with rfl | h1
          · exact absurd ha h2
          · exact ⟨h1, h2⟩
      · rw [show firstOccsAux seen (a :: t) = a :: firstOccsAux (a :: seen) t from by
          simp [firstOccsAux, ha]]
        constructor
        · intro h
          rcases List.mem_cons.mp h with rfl | h1
          · exact ⟨List.mem_cons_self _ _, ha⟩
          · rcases (ih _).mp h1 with ⟨h2, h3⟩
            exact ⟨List.mem_cons_of_mem _ h2,
              fun hb => h3 (List.mem_cons_of_mem _ hb)⟩
        · rintro ⟨h1, h2⟩
          rcases List.mem_cons.mp h1 with rfl | h1
          · exact List.mem_cons_self _ _
          · by_cases hba : b = a
            · subst hba
              exact List.mem_cons_self _ _
            · refine List.mem_cons_of_mem _ ((ih _).mpr ⟨h1, ?_⟩)
              intro hb
              rcases List.mem_cons.mp hb with h | h
              · exact hba h
              · exact h2 h

lemma mem_firstOccs {b : α} {l : List α} : b ∈ firstOccs l ↔ b ∈ l := by
  unfold firstOccs
  rw [mem_firstOccsAux]
  simp

end BasicLemmas

section AssignLemmas

variable {α : Type} [DecidableEq α]

lemma mem_assign {x : Fragment α × HierarchyLevelEnum} {es : List (Fragment α)}
    (hx : x ∈ assign_canonical_levels es) :
    x.1 ∈ es ∧
      canonicalOf (firstOccs (es.map (·.level))) x.1.level = some x.2 := by
  unfold assign_canonical_levels at hx
  rcases List.mem_filterMap.mp hx with ⟨e, he, hfe⟩
  rcases Option.map_eq_some'.mp hfe with ⟨c, hc, hec⟩
  cases hec
  exact ⟨he, hc⟩

lemma assign_tag {x : Fragment α × HierarchyLevelEnum} {es : List (Fragment α)}
    (hx : x ∈ assign_canonical_levels es) :
    ∃ i, i < detect_hierarchy_depth es ∧
      normalize_hierarchy_mapping (detect_hierarchy_depth es) i = some x.2 := by
  rcases mem_assign hx with ⟨-, hc⟩
  unfold canonicalOf at hc
  rcases hidx : idxOfLevel x.1.level (firstOccs (es.map (·.level))) with _ | i
  · rw [hidx] at hc
    simp at hc
  · rw [hidx] at hc
    exact ⟨i, idxOfLevel_lt_length hidx, hc⟩

lemma mem_kept_iff {e : Fragment α} {es : List (Fragment α)} (he : e ∈ es) :
    e ∈ keptFragments es ↔
      (canonicalOf (firstOccs (es.map (·.level))) e.level).isSome := by
  unfold keptFragments assign_canonical_levels
  constructor
  · intro h
    rcases List.mem_map.mp h with ⟨x, hx, hfst⟩
    rcases List.mem_filterMap.mp hx with ⟨e', he', hfe⟩
    rcases Option.map_eq_some'.mp hfe with ⟨c, hc, hec⟩
    cases hec
    cases hfst
    rw [hc]
    rfl
  · intro h
    rcases Option.isSome_iff_exists.mp h with ⟨c, hc⟩
    refine List.mem_map.mpr ⟨(e, c), List.mem_filterMap.mpr ⟨e, he, ?_⟩, rfl⟩
    rw [hc]
    rfl

lemma assign_cons_head (v : Fragment α) (vs : List (Fragment α)) :
    ∃ rest, assign_canonical_levels (v :: vs) =
      (v, HierarchyLevelEnum.domain) :: rest := by
  unfold assign_canonical_levels
  have hcanon : canonicalOf (firstOccs ((v :: vs).map (·.level))) v.level =
      some HierarchyLevelEnum.domain := by
    have hpresent : firstOccs ((v :: vs).map (·.level)) =
        v.level :: firstOccsAux [v.level] (vs.map (·.level)) := by
      simp [firstOccs, firstOccsAux]
    rw [hpresent]
    unfold canonicalOf
    simp [idxOfLevel, mapping_zero]
  have hg : (canonicalOf (firstOccs ((v :: vs).map (·.level))) v.level).map
      (fun c => (v, c)) = some (v, HierarchyLevelEnum.domain) := by
    rw [hcanon]
    rfl
  refine ⟨List.filterMap
    (fun e => (canonicalOf (firstOccs ((v :: vs).map (·.level))) e.level).map
      (fun c => (e, c))) vs, ?_⟩
  rw [List.filterMap_cons, hg]

end AssignLemmas

section StepLemmas

variable {α : Type}

lemma mkNormalizedStandard_ok {sid c s : String} {y : ℤ} {dl : HierarchyLevel}
    {sl ssl : Option HierarchyLevel} {il : HierarchyLevel} {sp : ℤ} {stxt : String}
    {std : NormalizedStandard}
    (h : mkNormalizedStandard sid c s y dl sl ssl il sp stxt = Except.ok std) :
    std = ⟨sid, c, s, y, dl, sl, ssl, il, sp, stxt⟩ := by
  unfold mkNormalizedStandard at h
  split at h
  · split at h
    · injection h with h
      exact h.symm
    · exact absurd h (by simp)
  · exact absurd h (by simp)

lemma parseStep_domain (c s : String) (y : ℤ) (st : AsmState α) (e : Fragment α) :
    parseStep c s y st (e, HierarchyLevelEnum.domain) =
      Except.ok { st with current_domain := some e, current_strand := none,
                          current_sub_strand := none } := rfl

lemma parseStep_strand (c s : String) (y : ℤ) (st : AsmState α) (e : Fragment α) :
    parseStep c s y st (e, HierarchyLevelEnum.strand) =
      Except.ok { st with current_strand := some e, current_sub_strand := none } := rfl

lemma parseStep_sub_strand (c s : String) (y : ℤ) (st : AsmState α) (e : Fragment α) :
    parseStep c s y st (e, HierarchyLevelEnum.sub_strand) =
      Except.ok { st with current_sub_strand := some e } := rfl

/-- Exhaustive description of a successful `parseStep` on an
Indicator-tagged fragment. -/
lemma parseStep_indicator_ok {c s : String} {y : ℤ} {st st' : AsmState α}
    {e : Fragment α}
    (h : parseStep c s y st (e, HierarchyLevelEnum.indicator) = Except.ok st') :
    (st.current_domain = none ∧ st' = { st with orphaned := st.orphaned ++ [e] }) ∨
    (∃ dom std, st.current_domain = some dom ∧
      mkNormalizedStandard
        (generate_standard_id c s y dom.code e.code) c s y
        ⟨dom.code, dom.title, none⟩
        (st.current_strand.map fun f => ⟨f.code, f.title, none⟩)
        (st.current_sub_strand.map fun f => ⟨f.code, f.title, none⟩)
        ⟨e.code, e.title, some e.description⟩
        e.source_page e.source_text = Except.ok std ∧
      st' = { st with standards := st.standards ++ [std] }) := by
  have h' : (match st.current_domain with
      | none => Except.ok { st with orphaned := st.orphaned ++ [e] }
      | some dom =>
          match mkNormalizedStandard
              (generate_standard_id c s y dom.code e.code) c s y
              ⟨dom.code, dom.title, none⟩
              (st.current_strand.map fun f => ⟨f.code, f.title, none⟩)
              (st.current_sub_strand.map fun f => ⟨f.code, f.title, none⟩)
              ⟨e.code, e.title, some e.description⟩
              e.source_page e.source_text with
          | Except.ok std => Except.ok { st with standards := st.standards ++ [std] }
          | Except.error msg => Except.error msg) = Except.ok st' := h
  rcases hdom : st.current_domain with _ | dom <;> rw [hdom] at h'
  · left
    refine ⟨rfl, ?_⟩
    have h2 : Except.ok (⟨none, st.current_strand, st.current_sub_strand,
        st.standards, st.orphaned ++ [e]⟩ : AsmState α) = Except.ok st' := h'
    injection h2 with h2
    exact h2.symm
  · right
    have h2 : (match mkNormalizedStandard
          (generate_standard_id c s y dom.code e.code) c s y
          ⟨dom.code, dom.title, none⟩
          (st.current_strand.map fun f => ⟨f.code, f.title, none⟩)
          (st.current_sub_strand.map fun f => ⟨f.code, f.title, none⟩)
          ⟨e.code, e.title, some e.description⟩
          e.source_page e.source_text with
        | Except.ok std => Except.ok (⟨some dom, st.current_strand,
            st.current_sub_strand, st.standards ++ [std], st.orphaned⟩ : AsmState α)
        | Except.error msg => Except.error msg) = Except.ok st' := h'
    rcases hmk : mkNormalizedStandard
        (generate_standard_id c s y dom.code e.code) c s y
        ⟨dom.code, dom.title, none⟩
        (st.current_strand.map fun f => ⟨f.code, f.title, none⟩)
        (st.current_sub_strand.map fun f => ⟨f.code, f.title, none⟩)
        ⟨e.code, e.title, some e.description⟩
        e.source_page e.source_text with msg | std
    · rw [hmk] at h2
      exact Except.noConfusion
        (show Except.error (α := AsmState α) msg = Except.ok st' from h2)
    · rw [hmk] at h2
      have h3 : Except.ok (⟨some dom, st.current_strand, st.current_sub_strand,
          st.standards ++ [std], st.orphaned⟩ : AsmState α) = Except.ok st' := h2
      injection h3 with h3
      exact ⟨dom, std, rfl, hmk, h3.symm⟩

/-- Invariants preserved by every successful step survive a successful
`foldlM` run of the assembly loop. -/
lemma foldlM_ok_invariant (P : AsmState α → Prop)
    (f : AsmState α → Fragment α × HierarchyLevelEnum → Except String (AsmState α)) :
    ∀ (xs : List (Fragment α × HierarchyLevelEnum)),
      (∀ st x st', x ∈ xs → P st → f st x = Except.ok st' → P st') →
      ∀ init final, P init → List.foldlM f init xs = Except.ok final → P final := by
  intro xs
  induction xs with
  | nil =>
      intro _ init final hP hfold
      simp only [List.foldlM_nil] at hfold
      injection hfold with hfold
      exact hfold ▸ hP
  | cons x t ih =>
      intro hstep init final hP hfold
      simp only [List.foldlM_cons] at hfold
      rcases hx : f init x with msg | st1
      · rw [hx] at hfold
        have hfold' : Except.error (α := AsmState α) msg = Except.ok final := hfold
        exact Except.noConfusion hfold'
      · rw [hx] at hfold
        have hfold' : List.foldlM f st1 t = Except.ok final := hfold
        have h1 : P st1 := hstep init x st1 (List.mem_cons_self _ _) hP hx
        exact ih (fun st x' st' hx' => hstep st x' st' (List.mem_cons_of_mem _ hx'))
          st1 final h1 hfold'

end StepLemmas

section ParseShape

variable {α : Type} [DecidableEq α]

/-- Case analysis on `parse_hierarchy`: either one of the error returns
fired (empty standards, status `"error"`), or the assembly loop ran to
completion over the canonical-tagged non-empty filtered list. -/
lemma parse_hierarchy_cases (es : List (Fragment α)) (c s : String) (y : ℤ) :
    ((parse_hierarchy es c s y).standards = [] ∧
      (parse_hierarchy es c s y).status = "error") ∨
    ∃ v vs final,
      es.filter (fun e => !e.needs_review) = v :: vs ∧
      List.foldlM (parseStep c s y) initState
        (assign_canonical_levels (v :: vs)) = Except.ok final ∧
      parse_hierarchy es c s y =
        ⟨final.standards, final.standards, final.orphaned, "success", none⟩ := by
  rcases hbody : parseHierarchyBody es c s y with msg | r
  · have hp : parse_hierarchy es c s y =
        ⟨[], [], es, "error", some ("Parsing failed: " ++ msg)⟩ := by
      unfold parse_hierarchy
      rw [hbody]
    left
    rw [hp]
    exact ⟨rfl, rfl⟩
  · have hp : parse_hierarchy es c s y = r := by
      unfold parse_hierarchy
      rw [hbody]
    rw [hp]
    simp only [parseHierarchyBody] at hbody
    split at hbody
    · injection hbody with hbody
      left
      rw [← hbody]
      exact ⟨rfl, rfl⟩
    · split at hbody
      · injection hbody with hbody
        left
        rw [← hbody]
        exact ⟨rfl, rfl⟩
      · split at hbody
        · injection hbody with hbody
          left
          rw [← hbody]
          exact ⟨rfl, rfl⟩
        · rename_i hne _ _
          split at hbody
          · exact absurd hbody (by simp)
          · rename_i final hfold
            injection hbody with hbody
            rcases hv : es.filter (fun e => !e.needs_review) with _ | ⟨v, vs⟩
            · rw [hv] at hne
              simp at hne
            · right
              refine ⟨v, vs, final, hv, ?_, ?_⟩
              · rw [hv] at hfold
                exact hfold
              · rw [← hbody]
end ParseShape

section StepInvariants

variable {α : Type}

lemma step_preserves_anchor {c s : String} {y : ℤ} {st st' : AsmState α}
    {x : Fragment α × HierarchyLevelEnum}
    (hP : st.current_domain ≠ none ∧ st.orphaned = [])
    (h : parseStep c s y st x = Except.ok st') :
    st'.current_domain ≠ none ∧ st'.orphaned = [] := by
  rcases x with ⟨e, lvl⟩
  cases lvl
  · rw [parseStep_domain] at h
    injection h with h
    rw [← h]
    exact ⟨by simp, hP.2⟩
  · rw [parseStep_strand] at h
    injection h with h
    rw [← h]
    exact hP
  · rw [parseStep_sub_strand] at h
    injection h with h
    rw [← h]
    exact hP
  · rcases parseStep_indicator_ok h with ⟨hdom, _⟩ | ⟨dom, std, _, _, hst⟩
    · exact absurd hdom hP.1
    · rw [hst]
      exact hP

lemma step_preserves_no_sub_strand {c s : String} {y : ℤ} {st st' : AsmState α}
    {x : Fragment α × HierarchyLevelEnum}
    (hx : x.2 ≠ HierarchyLevelEnum.sub_strand)
    (hP : st.current_sub_strand = none ∧ ∀ std ∈ st.standards, std.sub_strand = none)
    (h : parseStep c s y st x = Except.ok st') :
    st'.current_sub_strand = none ∧ ∀ std ∈ st'.standards, std.sub_strand = none := by
  rcases x with ⟨e, lvl⟩
  cases lvl
  · rw [parseStep_domain] at h
    injection h with h
    rw [← h]
    exact ⟨rfl, hP.2⟩
  · rw [parseStep_strand] at h
    injection h with h
    rw [← h]
    exact ⟨rfl, hP.2⟩
  · exact absurd rfl hx
  · rcases parseStep_indicator_ok h with ⟨_, hst⟩ | ⟨dom, std, _, hmk, hst⟩
    · rw [hst]
      exact hP
    · rw [hst]
      refine ⟨hP.1, fun std' hstd' => ?_⟩
      rcases List.mem_append.mp hstd' with hold | hnew
      · exact hP.2 std' hold
      · rw [List.mem_singleton.mp hnew, mkNormalizedStandard_ok hmk]
        show st.current_sub_strand.map _ = none
        rw [hP.1]
        rfl

lemma step_preserves_two_level {c s : String} {y : ℤ} {st st' : AsmState α}
    {x : Fragment α × HierarchyLevelEnum}
    (hx : x.2 ≠ HierarchyLevelEnum.strand ∧ x.2 ≠ HierarchyLevelEnum.sub_strand)
    (hP : st.current_strand = none ∧ st.current_sub_strand = none ∧
      ∀ std ∈ st.standards, std.strand = none ∧ std.sub_strand = none)
    (h : parseStep c s y st x = Except.ok st') :
    st'.current_strand = none ∧ st'.current_sub_strand = none ∧
      ∀ std ∈ st'.standards, std.strand = none ∧ std.sub_strand = none := by
  rcases x with ⟨e, lvl⟩
  cases lvl
  · rw [parseStep_domain] at h
    injection h with h
    rw [← h]
    exact ⟨rfl, rfl, hP.2.2⟩
  · exact absurd rfl hx.1
  · exact absurd rfl hx.2
  · rcases parseStep_indicator_ok h with ⟨_, hst⟩ | ⟨dom, std, _, hmk, hst⟩
    · rw [hst]
      exact hP
    · rw [hst]
      refine ⟨hP.1, hP.2.1, fun std' hstd' => ?_⟩
      rcases List.mem_append.mp hstd' with hold | hnew
      · exact hP.2.2 std' hold
      · rw [List.mem_singleton.mp hnew, mkNormalizedStandard_ok hmk]
        constructor
        · show st.current_strand.map _ = none
          rw [hP.1]
          rfl
        · show st.current_sub_strand.map _ = none
          rw [hP.2.1]
          rfl

end StepInvariants

section Invariants

variable {α : Type} [DecidableEq α]

/-- On the success path the assembly loop never orphans anything: the
first canonical-tagged fragment is always Domain-tagged, so the
current-domain slot is non-empty from the first iteration on. -/
lemma parse_success_orphans_nil (es : List (Fragment α)) (c s : String) (y : ℤ)
    (hs : (parse_hierarchy es c s y).status = "success") :
    (parse_hierarchy es c s y).orphaned_elements = [] := by
  rcases parse_hierarchy_cases es c s y with ⟨-, herr⟩ | ⟨v, vs, final, hv, hfold, hp⟩
  · rw [herr] at hs
    exact absurd hs (by decide)
  · rcases assign_cons_head v vs with ⟨rest, hassign⟩
    rw [hassign] at hfold
    simp only [List.foldlM_cons, parseStep_domain] at hfold
    have hfold' : List.foldlM (parseStep c s y)
        (⟨some v, none, none, [], []⟩ : AsmState α) rest = Except.ok final := hfold
    have hfinal : final.current_domain ≠ none ∧ final.orphaned = [] :=
      foldlM_ok_invariant _ _ rest
        (fun st x st' _ hP h => step_preserves_anchor hP h)
        _ final ⟨by simp, rfl⟩ hfold'
    rw [hp]
    exact hfinal.2

/-- When the filtered input exhibits at most three distinct raw levels,
no fragment is Sub-strand-tagged, so every accepted standard has a null
`sub_strand`. -/
lemma parse_standards_sub_strand_none (es : List (Fragment α)) (c s : String) (y : ℤ)
    (hd : detect_hierarchy_depth (es.filter fun e => !e.needs_review) ≤ 3) :
    ∀ std ∈ (parse_hierarchy es c s y).standards, std.sub_strand = none := by
  rcases parse_hierarchy_cases es c s y with ⟨hnil, -⟩ | ⟨v, vs, final, hv, hfold, hp⟩
  · rw [hnil]
    intro std hstd
    exact absurd hstd (List.not_mem_nil std)
  · rw [hv] at hd
    have htags : ∀ x ∈ assign_canonical_levels (v :: vs),
        x.2 ≠ HierarchyLevelEnum.sub_strand := by
      intro x hx
      rcases assign_tag hx with ⟨i, hi, hmap⟩
      intro hss
      rw [hss] at hmap
      exact mapping_no_sub_strand_of_depth_le_three hd hi hmap
    have hfinal : final.current_sub_strand = none ∧
        ∀ std ∈ final.standards, std.sub_strand = none :=
      foldlM_ok_invariant _ _ (assign_canonical_levels (v :: vs))
        (fun st x st' hx hP h => step_preserves_no_sub_strand (htags x hx) hP h)
        _ final ⟨rfl, fun std hstd => absurd hstd (List.not_mem_nil std)⟩ hfold
    rw [hp]
    exact hfinal.2

/-- When the filtered input exhibits exactly two distinct raw levels,
fragments are only Domain- or Indicator-tagged, so every accepted
standard has null `strand` and null `sub_strand`. -/
lemma parse_standards_two_level (es : List (Fragment α)) (c s : String) (y : ℤ)
    (hd : detect_hierarchy_depth (es.filter fun e => !e.needs_review) = 2) :
    ∀ std ∈ (parse_hierarchy es c s y).standards,
      std.strand = none ∧ std.sub_strand = none := by
  rcases parse_hierarchy_cases es c s y with ⟨hnil, -⟩ | ⟨v, vs, final, hv, hfold, hp⟩
  · rw [hnil]
    intro std hstd
    exact absurd hstd (List.not_mem_nil std)
  · rw [hv] at hd
    have htags : ∀ x ∈ assign_canonical_levels (v :: vs),
        x.2 ≠ HierarchyLevelEnum.strand ∧ x.2 ≠ HierarchyLevelEnum.sub_strand := by
      intro x hx
      rcases assign_tag hx with ⟨i, hi, hmap⟩
      rw [hd] at hi hmap
      exact mapping_depth_two_values hi hmap
    have hfinal : final.current_strand = none ∧ final.current_sub_strand = none ∧
        ∀ std ∈ final.standards, std.strand = none ∧ std.sub_strand = none :=
      foldlM_ok_invariant _ _ (assign_canonical_levels (v :: vs))
        (fun st x st' hx hP h => step_preserves_two_level (htags x hx) hP h)
        _ final ⟨rfl, rfl, fun std hstd => absurd hstd (List.not_mem_nil std)⟩ hfold
    rw [hp]
    exact hfinal.2.2

end Invariants

section RankLemmas

variable {α : Type} [DecidableEq α]

/-- Membership in the kept-fragment list is exactly the first four
first-occurrence ranks, whenever the detected depth takes the
4-or-more
branch of the canonical mapping. -/
lemma mem_kept_iff_rank {es : List (Fragment α)} {e : Fragment α} (he : e ∈ es)
    (h2 : detect_hierarchy_depth es ≠ 2) (h3 : detect_hierarchy_depth es ≠ 3) :
    e ∈ keptFragments es ↔ rawLevelRank es e.level < 4 := by
  have hmem : e.level ∈ firstOccs (es.map (·.level)) :=
    mem_firstOccs.mpr (List.mem_map_of_mem _ he)
  rcases idxOfLevel_isSome_of_mem hmem with ⟨i, hi⟩
  have hc : canonicalOf (firstOccs (es.map (·.level))) e.level =
      normalize_hierarchy_mapping (firstOccs (es.map (·.level))).length i := by
    unfold canonicalOf
    rw [hi]
  rw [mem_kept_iff he, hc]
  unfold rawLevelRank
  rw [hi]
  simp only [Option.getD_some]
  exact mapping_else_isSome h2 h3

omit [DecidableEq α] in
lemma step_preserves_provenance {c s : String} {y : ℤ} {st st' : AsmState α}
    {x : Fragment α × HierarchyLevelEnum} {kept : List (Fragment α)}
    (hxk : x.1 ∈ kept)
    (hP : ∀ std ∈ st.standards, ∃ f, f ∈ kept ∧ std.indicator.code = f.code ∧
      std.source_page = f.source_page ∧ std.source_text = f.source_text)
    (h : parseStep c s y st x = Except.ok st') :
    ∀ std ∈ st'.standards, ∃ f, f ∈ kept ∧ std.indicator.code = f.code ∧
      std.source_page = f.source_page ∧ std.source_text = f.source_text := by
  rcases x with ⟨e, lvl⟩
  cases lvl
  · rw [parseStep_domain] at h
    injection h with h
    rw [← h]
    exact hP
  · rw [parseStep_strand] at h
    injection h with h
    rw [← h]
    exact hP
  · rw [parseStep_sub_strand] at h
    injection h with h
    rw [← h]
    exact hP
  · rcases parseStep_indicator_ok h with ⟨_, hst⟩ | ⟨dom, std, _, hmk, hst⟩
    · rw [hst]
      exact hP
    · rw [hst]
      intro std' hstd'
      rcases List.mem_append.mp hstd' with hold | hnew
      · exact hP std' hold
      · rw [List.mem_singleton.mp hnew, mkNormalizedStandard_ok hmk]
        exact ⟨e, hxk, rfl, rfl, rfl⟩

/-- Every accepted standard is built from a fragment kept by canonical
assignment: its indicator code, source page and source text are those
of a kept fragment. -/
lemma parse_standards_provenance (es : List (Fragment α)) (c s : String) (y : ℤ) :
    ∀ std ∈ (parse_hierarchy es c s y).standards,
      ∃ f, f ∈ keptFragments (es.filter fun e => !e.needs_review) ∧
        std.indicator.code = f.code ∧ std.source_page = f.source_page ∧
        std.source_text = f.source_text := by
  rcases parse_hierarchy_cases es c s y with ⟨hnil, -⟩ | ⟨v, vs, final, hv, hfold, hp⟩
  · rw [hnil]
    intro std hstd
    exact absurd hstd (List.not_mem_nil std)
  · rw [hv]
    have hfinal := foldlM_ok_invariant
      (fun st => ∀ std ∈ st.standards, ∃ f, f ∈ keptFragments (v :: vs) ∧
        std.indicator.code = f.code ∧ std.source_page = f.source_page ∧
        std.source_text = f.source_text)
      _ (assign_canonical_levels (v :: vs))
      (fun st x st' hx hP h => step_preserves_provenance
        (List.mem_map_of_mem Prod.fst hx) hP h)
      _ final (fun std hstd => absurd hstd (List.not_mem_nil std)) hfold
    rw [hp]
    exact hfinal

end RankLemmas

-- Claim theorems, witnesses and counterexamples.
/-- C3: for every input fragment list and caller context, if
`parse_hierarchy` returns a result with status `"success"` then its
`orphaned_elements` list is empty (the first filtered fragment is
always Domain-tagged, so the orphan branch is unreachable). -/
theorem c3_success_implies_no_orphans {α : Type} [DecidableEq α]
    (es : List (Fragment α)) (c s : String) (y : ℤ)
    (hs : (parse_hierarchy es c s y).status = "success") :
    (parse_hierarchy es c s y).orphaned_elements = [] :=
  parse_success_orphans_nil es c s y hs

/-- Witness for C3 at a concrete successful input. -/
theorem c3_success_implies_no_orphans_witness :
    (parse_hierarchy esTwoLevel "US" "CA" 2021).status = "success" ∧
    (parse_hierarchy esTwoLevel "US" "CA" 2021).orphaned_elements = [] :=
  ⟨by decide, c3_success_implies_no_orphans esTwoLevel "US" "CA" 2021 (by decide)⟩

/-- C4: the identifier generator is a pure deterministic function of
its five inputs, equal to the literal dash-separated concatenation. -/
theorem c4_standard_id_deterministic :
    ∀ (country state : String) (version_year : ℤ) (domain_code indicator_code : String),
      generate_standard_id country state version_year domain_code indicator_code =
        country ++ "-" ++ state ++ "-" ++ toString version_year ++ "-" ++
          domain_code ++ "-" ++ indicator_code ∧
      generate_standard_id country state version_year domain_code indicator_code =
        generate_standard_id country state version_year domain_code indicator_code :=
  fun _ _ _ _ _ => ⟨rfl, rfl⟩

/-- C8: when every input fragment is flagged for review the filtered
list is empty and `parse_hierarchy` returns the no-usable-input error
with the original input as orphaned. -/
theorem c8_all_flagged_error {α : Type} [DecidableEq α]
    (es : List (Fragment α)) (c s : String) (y : ℤ)
    (h : ∀ e ∈ es, e.needs_review = true) :
    parse_hierarchy es c s y =
      ⟨[], [], es, "error",
        some "No valid elements to parse (all flagged for review)"⟩ := by
  have hfil : es.filter (fun e => !e.needs_review) = [] := by
    rw [List.filter_eq_nil_iff]
    intro a ha
    simp [h a ha]
  unfold parse_hierarchy
  simp only [parseHierarchyBody, hfil, List.isEmpty_nil, if_true]

/-- Witness for C8 at a concrete all-flagged input. -/
theorem c8_all_flagged_error_witness :
    esAllFlagged.all (fun e => e.needs_review) = true ∧
    parse_hierarchy esAllFlagged "US" "CA" 2021 =
      ⟨[], [], esAllFlagged, "error",
        some "No valid elements to parse (all flagged for review)"⟩ :=
  ⟨by decide, c8_all_flagged_error esAllFlagged "US" "CA" 2021 (by decide)⟩

/-- C9: `parse_hierarchy` is a total function, and whenever the body of
its `try` block raises, the top-level handler returns an error result
whose message carries the triggering error, with empty standards and
the original unfiltered input as orphaned. -/
theorem c9_catch_all_error_result {α : Type} [DecidableEq α]
    (es : List (Fragment α)) (c s : String) (y : ℤ) (msg : String)
    (h : parseHierarchyBody es c s y = Except.error msg) :
    parse_hierarchy es c s y =
      ⟨[], [], es, "error", some ("Parsing failed: " ++ msg)⟩ := by
  unfold parse_hierarchy
  rw [h]

/-- Witness for C9: an in-loop pydantic failure (lowercase country
code) reaches the catch-all handler. -/
theorem c9_catch_all_error_result_witness :
    parseHierarchyBody esTwoLevel "us" "CA" 2021 = Except.error
      "country must be a two-letter uppercase ISO 3166-1 alpha-2 code, got: us" ∧
    parse_hierarchy esTwoLevel "us" "CA" 2021 =
      ⟨[], [], esTwoLevel, "error", some ("Parsing failed: " ++
        "country must be a two-letter uppercase ISO 3166-1 alpha-2 code, got: us")⟩ :=
  ⟨by decide, c9_catch_all_error_result esTwoLevel "us" "CA" 2021 _ (by decide)⟩

/-- C10: every successfully constructed `DetectedElement` satisfies
`needs_review = (confidence < 0.7)`: the field validator overrides any
supplied value that disagrees with the threshold. -/
theorem c10_needs_review_iff_low_confidence {α : Type} (level : α)
    (code title description : String) (confidence : ℚ) (source_page : ℤ)
    (source_text : String) (needs_review : Bool) (e : Fragment α)
    (h : mkDetectedElement level code title description confidence source_page
      source_text needs_review = some e) :
    (e.needs_review = true ↔ e.confidence < mkRat 7 10) := by
  simp only [mkDetectedElement] at h
  split at h
  · split at h
    · injection h with h
      rw [← h]
      by_cases hlt : confidence < mkRat 7 10 <;> cases needs_review <;> simp [hlt]
    · exact absurd h (by simp)
  · exact absurd h (by simp)

/-- Witness for C10: a supplied `needs_review = true` at confidence
0.9 is overridden to `false`. -/
theorem c10_needs_review_iff_low_confidence_witness :
    mkDetectedElement HierarchyLevelEnum.indicator "C" "T" "D" (mkRat 9 10) 1 "S" true =
      some ⟨HierarchyLevelEnum.indicator, "C", "T", "D", mkRat 9 10, 1, "S", false⟩ ∧
    ((false : Bool) = true ↔ mkRat 9 10 < mkRat 7 10) := by
  have hmk : mkDetectedElement HierarchyLevelEnum.indicator "C" "T" "D" (mkRat 9 10) 1 "S" true =
      some ⟨HierarchyLevelEnum.indicator, "C", "T", "D", mkRat 9 10, 1, "S", false⟩ := by decide
  exact ⟨hmk, c10_needs_review_iff_low_confidence _ "C" "T" "D" (mkRat 9 10) 1 "S" true _ hmk⟩

/-- C1 (amended): every accepted standard's `domain` is structurally
required; the implication `sub_strand` non-null → `strand` non-null
holds whenever the filtered input exhibits at most three distinct raw
levels (where `sub_strand` is always null).  At depth 4 or more it can
fail; see the counterexample. -/
theorem c1_closure_depth_le_three {α : Type} [DecidableEq α]
    (es : List (Fragment α)) (c s : String) (y : ℤ)
    (hd : detect_hierarchy_depth (es.filter fun e => !e.needs_review) ≤ 3)
    (std : NormalizedStandard)
    (hstd : std ∈ (parse_hierarchy es c s y).standards) :
    std.sub_strand = none ∧ (std.sub_strand.isSome → std.strand.isSome) := by
  have h := parse_standards_sub_strand_none es c s y hd std hstd
  refine ⟨h, fun hss => ?_⟩
  rw [h] at hss
  exact absurd hss (by simp)

/-- Counterexample to C1 as stated: at depth 4, a SubStrand fragment
following a fresh Domain fragment yields an accepted standard with
non-null `sub_strand` and null `strand`. -/
theorem c1_closure_counterexample :
    ¬ (∀ std ∈ (parse_hierarchy esDomResetSubStrand "US" "CA" 2021).standards,
        std.sub_strand.isSome → std.strand.isSome) := by decide

/-- Witness for the amended C1 at a concrete depth-2 input. -/
theorem c1_closure_depth_le_three_witness :
    detect_hierarchy_depth (esTwoLevel.filter fun e => !e.needs_review) ≤ 3 ∧
    stdTwoLevel ∈ (parse_hierarchy esTwoLevel "US" "CA" 2021).standards ∧
    stdTwoLevel.sub_strand = none :=
  ⟨by decide, by decide,
    (c1_closure_depth_le_three esTwoLevel "US" "CA" 2021 (by decide) stdTwoLevel
      (by decide)).1⟩

/-- C2 (amended): with exactly two distinct raw levels every accepted
standard has null `strand` and null `sub_strand`; with exactly three,
`sub_strand` is null (but `strand` can be null as well when a second
Domain fragment resets the context — see the counterexample). -/
theorem c2_depth_to_shape {α : Type} [DecidableEq α]
    (es : List (Fragment α)) (c s : String) (y : ℤ)
    (hd : detect_hierarchy_depth (es.filter fun e => !e.needs_review) = 2 ∨
      detect_hierarchy_depth (es.filter fun e => !e.needs_review) = 3)
    (std : NormalizedStandard)
    (hstd : std ∈ (parse_hierarchy es c s y).standards) :
    std.sub_strand = none ∧
      (detect_hierarchy_depth (es.filter fun e => !e.needs_review) = 2 →
        std.strand = none) := by
  rcases hd with h2 | h3
  · have h := parse_standards_two_level es c s y h2 std hstd
    exact ⟨h.2, fun _ => h.1⟩
  · have h := parse_standards_sub_strand_none es c s y (by omega) std hstd
    refine ⟨h, fun h2 => ?_⟩
    rw [h2] at h3
    exact absurd h3 (by omega)

/-- Counterexample to C2 as stated: a depth-3 input whose second
Domain fragment is followed directly by an Indicator fragment yields an
accepted standard with null `strand`. -/
theorem c2_depth_to_shape_counterexample :
    detect_hierarchy_depth (esDepthThreeReset.filter fun e => !e.needs_review) = 3 ∧
    ∃ std ∈ (parse_hierarchy esDepthThreeReset "US" "CA" 2021).standards,
      std.strand = none := by decide

/-- Witness for the amended C2 at a concrete depth-2 input. -/
theorem c2_depth_to_shape_witness :
    detect_hierarchy_depth (esTwoLevelB.filter fun e => !e.needs_review) = 2 ∧
    stdTwoLevelB ∈ (parse_hierarchy esTwoLevelB "US" "CA" 2021).standards ∧
    stdTwoLevelB.sub_strand = none ∧ stdTwoLevelB.strand = none := by
  have h := c2_depth_to_shape esTwoLevelB "US" "CA" 2021 (Or.inl (by decide))
    stdTwoLevelB (by decide)
  exact ⟨by decide, by decide, h.1, h.2 (by decide)⟩

/-- C6: a Domain-tagged fragment sets the current domain and clears
both the current strand and current sub-strand; on the concrete
scenario-C input the second accepted standard therefore has domain B
with null strand and sub_strand. -/
theorem c6_domain_resets_context :
    (∀ (α : Type) (c s : String) (y : ℤ) (st : AsmState α) (e : Fragment α),
      parseStep c s y st (e, HierarchyLevelEnum.domain) =
        Except.ok { st with current_domain := some e, current_strand := none,
                            current_sub_strand := none }) ∧
    (parse_hierarchy esContextReset "US" "CA" 2021).standards.map
        (fun std => (std.domain.code, std.strand.isNone, std.sub_strand.isNone)) =
      [("A", false, false), ("B", true, true)] :=
  ⟨fun _ _ _ _ _ _ => rfl, by decide⟩

/-- C7: an Indicator-tagged fragment processed while the current
domain is set but strand and sub-strand context are both empty is
accepted as a standard with null `strand` and `sub_strand`; the
orphaned accumulator is untouched.  (The two validity side conditions
are those of the pydantic constructor of the standard.) -/
theorem c7_indicator_accepted_without_context {α : Type}
    (c s : String) (y : ℤ) (st : AsmState α) (e d : Fragment α)
    (hdom : st.current_domain = some d)
    (hstr : st.current_strand = none)
    (hss : st.current_sub_strand = none)
    (hc : countryCodeValid c = true)
    (hp : 0 < e.source_page) :
    parseStep c s y st (e, HierarchyLevelEnum.indicator) =
      Except.ok { st with standards := st.standards ++
        [⟨generate_standard_id c s y d.code e.code, c, s, y,
          ⟨d.code, d.title, none⟩, none, none,
          ⟨e.code, e.title, some e.description⟩, e.source_page, e.source_text⟩] } := by
  have h1 : parseStep c s y st (e, HierarchyLevelEnum.indicator) =
      (match st.current_domain with
       | none => Except.ok { st with orphaned := st.orphaned ++ [e] }
       | some dom =>
          match mkNormalizedStandard
              (generate_standard_id c s y dom.code e.code) c s y
              ⟨dom.code, dom.title, none⟩
              (st.current_strand.map fun f => ⟨f.code, f.title, none⟩)
              (st.current_sub_strand.map fun f => ⟨f.code, f.title, none⟩)
              ⟨e.code, e.title, some e.description⟩
              e.source_page e.source_text with
          | Except.ok std => Except.ok { st with standards := st.standards ++ [std] }
          | Except.error msg => Except.error msg) := rfl
  rw [h1, hdom, hstr, hss]
  have hmk : mkNormalizedStandard
      (generate_standard_id c s y d.code e.code) c s y
      ⟨d.code, d.title, none⟩
      ((none : Option (Fragment α)).map fun f => ⟨f.code, f.title, none⟩)
      ((none : Option (Fragment α)).map fun f => ⟨f.code, f.title, none⟩)
      ⟨e.code, e.title, some e.description⟩
      e.source_page e.source_text =
      Except.ok ⟨generate_standard_id c s y d.code e.code, c, s, y,
        ⟨d.code, d.title, none⟩, none, none,
        ⟨e.code, e.title, some e.description⟩, e.source_page, e.source_text⟩ := by
    unfold mkNormalizedStandard
    rw [hc]
    rw [if_pos rfl, if_pos hp]
    rfl
  show (match mkNormalizedStandard
      (generate_standard_id c s y d.code e.code) c s y
      ⟨d.code, d.title, none⟩
      ((none : Option (Fragment α)).map fun f => ⟨f.code, f.title, none⟩)
      ((none : Option (Fragment α)).map fun f => ⟨f.code, f.title, none⟩)
      ⟨e.code, e.title, some e.description⟩
      e.source_page e.source_text with
    | Except.ok std =>
        Except.ok (⟨some d, none, none, st.standards ++ [std], st.orphaned⟩ : AsmState α)
    | Except.error msg => Except.error msg) =
    Except.ok (⟨some d, none, none, st.standards ++
      [⟨generate_standard_id c s y d.code e.code, c, s, y,
        ⟨d.code, d.title, none⟩, none, none,
        ⟨e.code, e.title, some e.description⟩, e.source_page, e.source_text⟩],
      st.orphaned⟩ : AsmState α)
  rw [hmk]



/-- Witness for C7 at a concrete state and fragment. -/
theorem c7_indicator_accepted_without_context_witness :
    (stC7.current_domain = some domFragC7 ∧ stC7.current_strand = none ∧
      stC7.current_sub_strand = none ∧ countryCodeValid "US" = true ∧
      0 < indFragC7.source_page) ∧
    parseStep "US" "CA" 2021 stC7 (indFragC7, HierarchyLevelEnum.indicator) =
      Except.ok { stC7 with standards := stC7.standards ++
        [⟨generate_standard_id "US" "CA" 2021 domFragC7.code indFragC7.code,
          "US", "CA", 2021,
          ⟨domFragC7.code, domFragC7.title, none⟩, none, none,
          ⟨indFragC7.code, indFragC7.title, some indFragC7.description⟩,
          indFragC7.source_page, indFragC7.source_text⟩] } :=
  ⟨⟨rfl, rfl, rfl, by decide, by decide⟩,
    c7_indicator_accepted_without_context "US" "CA" 2021 stC7 indFragC7 domFragC7
      rfl rfl rfl (by decide) (by decide)⟩

/-- C5 (amended): when the filtered fragments exhibit five or more
distinct raw levels and parsing succeeds, a filtered fragment is kept
by canonical assignment exactly when its raw level is among the first
four distinct labels; fifth-or-later-label fragments are dropped
entirely (the orphaned list is empty and every accepted standard is
built from a kept fragment).  On the catch-all error path the original
input — dropped fragments included — is returned as orphaned instead;
the label-polymorphic embedding is used because the enum-typed
`DetectedElement` admits at most four distinct labels. -/
theorem c5_fifth_label_dropped {α : Type} [DecidableEq α]
    (es : List (Fragment α)) (c s : String) (y : ℤ) (e : Fragment α)
    (h5 : 5 ≤ detect_hierarchy_depth (es.filter fun x => !x.needs_review))
    (hs : (parse_hierarchy es c s y).status = "success")
    (he : e ∈ es.filter fun x => !x.needs_review) :
    (e ∈ keptFragments (es.filter fun x => !x.needs_review) ↔
      rawLevelRank (es.filter fun x => !x.needs_review) e.level < 4) ∧
    (parse_hierarchy es c s y).orphaned_elements = [] ∧
    ∀ std ∈ (parse_hierarchy es c s y).standards,
      ∃ f, f ∈ keptFragments (es.filter fun x => !x.needs_review) ∧
        std.indicator.code = f.code ∧ std.source_page = f.source_page ∧
        std.source_text = f.source_text :=
  ⟨mem_kept_iff_rank he (by omega) (by omega),
   parse_success_orphans_nil es c s y hs,
   parse_standards_provenance es c s y⟩

/-- Counterexample to C5 as stated: with five distinct labels and a
lowercase country code, the catch-all error path returns every original
fragment — the fifth-label fragment included — as orphaned. -/
theorem c5_fifth_label_dropped_counterexample :
    5 ≤ detect_hierarchy_depth (esFiveLevels.filter fun x => !x.needs_review) ∧
    rawLevelRank (esFiveLevels.filter fun x => !x.needs_review)
      (natFrag 4 "x").level = 4 ∧
    natFrag 4 "x" ∈
      (parse_hierarchy esFiveLevels "us" "CA" 2021).orphaned_elements := by decide

/-- Witness for the amended C5 at a concrete five-label input. -/
theorem c5_fifth_label_dropped_witness :
    (5 ≤ detect_hierarchy_depth (esFiveLevels.filter fun x => !x.needs_review)) ∧
    (parse_hierarchy esFiveLevels "US" "CA" 2021).status = "success" ∧
    natFrag 4 "x" ∈ esFiveLevels.filter (fun x => !x.needs_review) ∧
    decide (natFrag 4 "x" ∈
      keptFragments (esFiveLevels.filter fun x => !x.needs_review)) = false ∧
    (parse_hierarchy esFiveLevels "US" "CA" 2021).orphaned_elements = [] := by
  have h := c5_fifth_label_dropped esFiveLevels "US" "CA" 2021 (natFrag 4 "x")
    (by decide) (by decide) (by decide)
  refine ⟨by decide, by decide, by decide, ?_, h.2.1⟩
  rw [decide_eq_false_iff_not]
  intro hmem
  have h4 := h.1.mp hmem
  rw [show rawLevelRank (esFiveLevels.filter fun x => !x.needs_review)
    (natFrag 4 "x").level = 4 from by decide] at h4
  omega

end ELS
